import Mathlib

/-!
# Task-list HTTP service: store, service, handler and route

A shallow embedding of the Go packages `domain`, `repository`, `service`,
`handler` and of the route closure of `cmd/api/main.go`.

* Mutable receivers become explicit state passing: a method returns the new
  state next to its Go results.
* A Go `error` is identified with the text returned by its `Error()` method;
  `nil` is `none`.
* Go `int` is the 64-bit two's-complement integer of a 64-bit target:
  `nextID++` wraps (`wrapInt`).  A theorem that needs `nextID` not to have
  wrapped says so by a bound on the number of stored tasks; the length of a Go
  slice is itself an `int`, and `2^63 - 1` tasks do not fit in an address
  space of `2^64` bytes, so no store in a running program exceeds the bound.
* The store is modelled twice.  `InMemoryRepo` keeps the slice `tasks` as the
  sequence of its elements and takes the argument of `Save` as the task behind
  the pointer; this is exact as long as no caller holds a pointer into the
  store, as is the case for every call the service makes.  `Ref.InMemoryRepo`
  keeps the slice header, the backing arrays and the pointer given to `Save`,
  which is what matters once a caller writes through the slice that `GetAll`
  handed out or saves one of its elements; `Ref.abs_Save`, `Ref.abs_SavePtr`
  and `Ref.abs_GetAll` relate the two.
-/

namespace TodoClean

/-! ## package domain -/

/-- Go `time.Time`: wall-clock word, extended seconds, location pointer.
Its zero value has all three fields zero / nil. -/
structure Time where
  wall : Nat
  ext : Int
  loc : Option Nat
  deriving DecidableEq, Repr

/-- The zero value of `time.Time`. -/
def Time.zero : Time := ⟨0, 0, none⟩

/-- `domain.Task`. -/
structure Task where
  ID : Int
  Title : String
  IsCompleted : Bool
  CreatedAt : Time
  UpdatedAt : Time
  deriving DecidableEq, Repr

/-- The zero value `domain.Task{}`. -/
def Task.zero : Task := ⟨0, "", false, Time.zero, Time.zero⟩

/-- A Go `error` value, identified with its message. -/
abbrev Error := String

/-- `domain.TaskRepository`: the interface, over the state `σ` of the
implementation behind it.  Both methods may change that state and may return
an error. -/
structure TaskRepository (σ : Type) where
  Save : σ → Task → σ × Task × Option Error
  GetAll : σ → σ × List Task × Option Error

/-! ## Go `int` -/

/-- Largest value of a Go `int` on a 64-bit target, `2^63 - 1`. -/
def maxInt : Int := 9223372036854775807

/-- Two's-complement wrap-around of a 64-bit Go `int`. -/
def wrapInt (x : Int) : Int :=
  (x + 9223372036854775808) % 18446744073709551616 - 9223372036854775808

/-! ## package repository -/

/-- `repository.InMemoryRepo`, the slice `tasks` taken as the sequence of its
elements. -/
structure InMemoryRepo where
  tasks : List Task
  nextID : Int
  deriving DecidableEq, Repr

/-- `repository.NewInMemoryRepo`. -/
def NewInMemoryRepo : InMemoryRepo :=
  { tasks := [], nextID := 1 }

/-- `(*InMemoryRepo).Save` on a pointer to a task that is not an element of
the store: takes the task behind the pointer and returns the new store, the
task as left behind the pointer, and the error (always `nil`).
`Ref.InMemoryRepo.SavePtr` is `Save` on any pointer. -/
def InMemoryRepo.Save (r : InMemoryRepo) (task : Task) :
    InMemoryRepo × Task × Option Error :=
  let task1 : Task := { task with ID := r.nextID }
  let r1 : InMemoryRepo := { r with nextID := wrapInt (r.nextID + 1) }
  let r2 : InMemoryRepo := { r1 with tasks := r1.tasks ++ [task1] }
  (r2, task1, none)

/-- `(*InMemoryRepo).GetAll`. -/
def InMemoryRepo.GetAll (r : InMemoryRepo) :
    InMemoryRepo × List Task × Option Error :=
  (r, r.tasks, none)

/-- `InMemoryRepo` as an implementation of `domain.TaskRepository`. -/
def inMemory : TaskRepository InMemoryRepo :=
  { Save := InMemoryRepo.Save, GetAll := InMemoryRepo.GetAll }

/-! ## package service -/

/-- `service.TaskService`. -/
structure TaskService (σ : Type) where
  repo : TaskRepository σ

/-- `service.NewTaskService`. -/
def NewTaskService {σ : Type} (repo : TaskRepository σ) : TaskService σ :=
  { repo := repo }

/-- `(*TaskService).CreateTask`: new store state, the returned `*domain.Task`
(`none` is `nil`) and the error. -/
def TaskService.CreateTask {σ : Type} (s : TaskService σ) (st : σ) (title : String) :
    σ × Option Task × Option Error :=
  if title = "" then
    (st, none, some "el título no puede estar vacío")
  else
    let newTask : Task :=
      { ID := 0, Title := title, IsCompleted := false,
        CreatedAt := Time.zero, UpdatedAt := Time.zero }
    match s.repo.Save st newTask with
    | (st1, _, some err) => (st1, none, some err)
    | (st1, saved, none) => (st1, some saved, none)

/-- `(*TaskService).GetTasks`. -/
def TaskService.GetTasks {σ : Type} (s : TaskService σ) (st : σ) :
    σ × List Task × Option Error :=
  s.repo.GetAll st

/-! ## package handler -/

/-- The parts of `http.Request` the handlers read. -/
structure Request where
  Method : String
  Body : String
  deriving DecidableEq, Repr

/-- What was written to the response body: plain text, or the JSON encoding
of a `*domain.Task` (`none` is the nil pointer) or of a `[]domain.Task`, kept
as the encoded value. -/
inductive Payload where
  | text (s : String)
  | task (t : Option Task)
  | tasks (ts : List Task)
  deriving DecidableEq, Repr

/-- What a handler left in the `http.ResponseWriter`. -/
structure Response where
  Status : Nat
  Header : List (String × String)
  Body : Payload
  deriving DecidableEq, Repr

/-- `http.StatusBadRequest`. -/
def StatusBadRequest : Nat := 400
/-- `http.StatusCreated`. -/
def StatusCreated : Nat := 201
/-- `http.StatusOK`, the status of a response whose handler never calls
`WriteHeader`. -/
def StatusOK : Nat := 200
/-- `http.StatusMethodNotAllowed`. -/
def StatusMethodNotAllowed : Nat := 405

/-- `http.Error` of the standard library: plain-text content type, the given
status, and the message followed by a newline. -/
def httpError (msg : String) (code : Nat) : Response :=
  { Status := code,
    Header := [("Content-Type", "text/plain; charset=utf-8"),
               ("X-Content-Type-Options", "nosniff")],
    Body := Payload.text (msg ++ "\n") }

/-- `handler.TaskHandler`. -/
structure TaskHandler (σ : Type) where
  service : TaskService σ

/-- `handler.NewTaskHandler`. -/
def NewTaskHandler {σ : Type} (s : TaskService σ) : TaskHandler σ :=
  { service := s }

/-- `(*TaskHandler).CreateTask`.  `decode` stands for
`json.NewDecoder(r.Body).Decode(&body)` of the standard library: applied to
the request body it gives either the decoding error or `body.Title`. -/
def TaskHandler.CreateTask {σ : Type} (decode : String → Except Error String)
    (h : TaskHandler σ) (st : σ) (r : Request) : σ × Response :=
  match decode r.Body with
  | Except.error _ => (st, httpError "JSON inválido" StatusBadRequest)
  | Except.ok title =>
    match h.service.CreateTask st title with
    | (st1, _, some err) => (st1, httpError err StatusBadRequest)
    | (st1, createdTask, none) =>
      (st1, { Status := StatusCreated,
              Header := [("Content-Type", "application/json")],
              Body := Payload.task createdTask })

/-- `(*TaskHandler).GetAllTasks`: the error of `GetTasks` is dropped. -/
def TaskHandler.GetAllTasks {σ : Type} (h : TaskHandler σ) (st : σ) (_r : Request) :
    σ × Response :=
  match h.service.GetTasks st with
  | (st1, tasks, _) =>
    (st1, { Status := StatusOK,
            Header := [("Content-Type", "application/json")],
            Body := Payload.tasks tasks })

/-! ## cmd/api: the `/tasks` route -/

/-- `http.MethodPost`. -/
def MethodPost : String := "POST"
/-- `http.MethodGet`. -/
def MethodGet : String := "GET"

/-- The closure registered for `/tasks` in `main`. -/
def tasksRoute {σ : Type} (decode : String → Except Error String)
    (h : TaskHandler σ) (st : σ) (r : Request) : σ × Response :=
  if r.Method = MethodPost then
    h.CreateTask decode st r
  else if r.Method = MethodGet then
    h.GetAllTasks st r
  else
    (st, httpError "Método no permitido" StatusMethodNotAllowed)

/-- The handler `main` builds: in-memory store, service, handler. -/
def mainHandler : TaskHandler InMemoryRepo :=
  NewTaskHandler (NewTaskService inMemory)

/-! ## Call sequences on the in-memory store -/

/-- One call made on the store: `Save` directly, or `CreateTask` through the
service. -/
inductive Call where
  | save (task : Task)
  | create (title : String)
  deriving DecidableEq, Repr

/-- The store after one call. -/
def Call.apply (r : InMemoryRepo) : Call → InMemoryRepo
  | Call.save task => (r.Save task).1
  | Call.create title => ((NewTaskService inMemory).CreateTask r title).1

/-- The store after a sequence of calls, first call first. -/
def runCalls (cs : List Call) (r : InMemoryRepo) : InMemoryRepo :=
  cs.foldl Call.apply r

/-- Saves the tasks one after another; returns the final store and, in call
order, each task as its `Save` left it (with the assigned id). -/
def saveAll : InMemoryRepo → List Task → InMemoryRepo × List Task
  | r, [] => (r, [])
  | r, task :: rest =>
    let r1 := (r.Save task).1
    let saved := (r.Save task).2.1
    ((saveAll r1 rest).1, saved :: (saveAll r1 rest).2)

/-- Calls `CreateTask` through the service once per title, first title first;
returns the final store. -/
def createAll (titles : List String) (r : InMemoryRepo) : InMemoryRepo :=
  titles.foldl (fun st title => ((NewTaskService inMemory).CreateTask st title).1) r

/-- A repository whose `Save` always fails, as a store on a full disk would. -/
def failingRepo : TaskRepository Unit :=
  { Save := fun st task => (st, task, some "disk full"),
    GetAll := fun st => (st, [], some "disk full") }

/-- The ids held by the store are `1, 2, ...` in insertion order (as Go
`int`s) and `nextID` is the one after the last. -/
def Sequential (r : InMemoryRepo) : Prop :=
  r.nextID = wrapInt ((r.tasks.length : Int) + 1) ∧
    ∀ (i : Nat) (t : Task), r.tasks[i]? = some t → t.ID = wrapInt ((i : Int) + 1)

/-! ## The store with its slice kept as a slice -/

namespace Ref

/-- A Go slice header: address of the backing array, length, capacity. -/
structure Slice where
  array : Nat
  len : Nat
  cap : Nat
  deriving DecidableEq, Repr

/-- The backing arrays of task slices: `cell a j` is element `j` of the array
at address `a`; `next` is the first address not yet handed out.  Address `0`
is the base of zero-sized allocations. -/
structure Memory where
  cell : Nat → Nat → Task
  next : Nat

/-- Memory before any allocation. -/
def Memory.init : Memory :=
  { cell := fun _ _ => Task.zero, next := 1 }

/-- The elements of a slice, `s[0], ..., s[len-1]`. -/
def Memory.view (m : Memory) (s : Slice) : List Task :=
  (List.range s.len).map (m.cell s.array)

/-- The assignment `s[i] = x`; `none` is the index-out-of-range panic. -/
def Memory.store (m : Memory) (s : Slice) (i : Nat) (x : Task) : Option Memory :=
  if i < s.len then
    some { m with cell := fun a j => if a = s.array ∧ j = i then x else m.cell a j }
  else
    none

/-- The built-in `append(s, x)`: written in place when the capacity allows,
otherwise into a fresh array holding a copy of the elements.  The capacity of
the fresh array is left to the runtime by the language; `grow` gives it from
the old capacity, and it is at least the new length. -/
def Memory.append (grow : Nat → Nat) (m : Memory) (s : Slice) (x : Task) :
    Memory × Slice :=
  if s.len < s.cap then
    ({ m with cell := fun a j => if a = s.array ∧ j = s.len then x else m.cell a j },
     { s with len := s.len + 1 })
  else
    ({ cell := fun a j =>
         if a = m.next then
           (if j < s.len then m.cell s.array j else if j = s.len then x else Task.zero)
         else m.cell a j,
       next := m.next + 1 },
     { array := m.next, len := s.len + 1, cap := max (grow s.cap) (s.len + 1) })

/-- `repository.InMemoryRepo` with `tasks` as a slice header. -/
structure InMemoryRepo where
  tasks : Slice
  nextID : Int
  deriving DecidableEq, Repr

/-- `repository.NewInMemoryRepo`: `[]domain.Task{}` is the empty slice of
capacity zero. -/
def NewInMemoryRepo : InMemoryRepo :=
  { tasks := { array := 0, len := 0, cap := 0 }, nextID := 1 }

/-- `(*InMemoryRepo).Save`. -/
def InMemoryRepo.Save (grow : Nat → Nat) (m : Memory) (r : InMemoryRepo) (task : Task) :
    (Memory × InMemoryRepo) × Task × Option Error :=
  let task1 : Task := { task with ID := r.nextID }
  let r1 : InMemoryRepo := { r with nextID := wrapInt (r.nextID + 1) }
  let grown := m.append grow r1.tasks task1
  ((grown.1, { r1 with tasks := grown.2 }), task1, none)

/-- `(*InMemoryRepo).GetAll`: hands out the slice header held by the store. -/
def InMemoryRepo.GetAll (m : Memory) (r : InMemoryRepo) :
    (Memory × InMemoryRepo) × Slice × Option Error :=
  ((m, r), r.tasks, none)

/-- The store as the sequence of its elements. -/
def abs (m : Memory) (r : InMemoryRepo) : TodoClean.InMemoryRepo :=
  { tasks := m.view r.tasks, nextID := r.nextID }

/-- A caller of `GetAll` assigns `x` to element `i` of the slice it received;
then `GetAll` is called again and the elements of its result are read.
`none` when the assignment panics. -/
def overwriteThenGetAll (m : Memory) (r : InMemoryRepo) (i : Nat) (x : Task) :
    Option (List Task) :=
  let got := (r.GetAll m).2.1
  (m.store got i x).map (fun m1 => m1.view (r.GetAll m1).2.1)

/-- The store of the example: a fresh store into which one task titled `a`
was saved, appended arrays doubling in capacity. -/
def oneSaved : (Memory × InMemoryRepo) × Task × Option Error :=
  NewInMemoryRepo.Save (fun c => 2 * c) Memory.init ⟨0, "a", false, Time.zero, Time.zero⟩

/-- A `*domain.Task`: the address of an array and an index into it.  A task
allocated on its own is an array of one element; `&s[i]` is element `i` of the
backing array of `s`. -/
structure TaskPtr where
  array : Nat
  index : Nat
  deriving DecidableEq, Repr

/-- The task behind a pointer, `*p`. -/
def Memory.load (m : Memory) (p : TaskPtr) : Task :=
  m.cell p.array p.index

/-- The assignment `p.ID = id`. -/
def Memory.setID (m : Memory) (p : TaskPtr) (id : Int) : Memory :=
  { m with cell := fun a j =>
      if a = p.array ∧ j = p.index then { m.cell a j with ID := id } else m.cell a j }

/-- The allocation `&domain.Task{...}` of a task on its own. -/
def Memory.newTask (m : Memory) (t : Task) : Memory × TaskPtr :=
  ({ cell := fun a j =>
       if a = m.next then (if j = 0 then t else Task.zero) else m.cell a j,
     next := m.next + 1 },
   { array := m.next, index := 0 })

/-- The pointer `&s[i]` to element `i` of a slice. -/
def Slice.elem (s : Slice) (i : Nat) : TaskPtr :=
  { array := s.array, index := i }

/-- `(*InMemoryRepo).Save` with its argument kept as the pointer it is: the
id is written through the pointer, the counter is incremented, and the task
then found behind the pointer is appended. -/
def InMemoryRepo.SavePtr (grow : Nat → Nat) (m : Memory) (r : InMemoryRepo)
    (task : TaskPtr) : (Memory × InMemoryRepo) × Option Error :=
  let m1 := m.setID task r.nextID
  let r1 : InMemoryRepo := { r with nextID := wrapInt (r.nextID + 1) }
  let grown := m1.append grow r1.tasks (m1.load task)
  ((grown.1, { r1 with tasks := grown.2 }), none)

/-- Calls `Save` on the pointers one after another; returns the final memory
and store and, in call order, for each call the task behind its pointer when
the call was made and the task behind it when the call returned. -/
def savePtrAll (grow : Nat → Nat) :
    Memory → InMemoryRepo → List TaskPtr → (Memory × InMemoryRepo) × List (Task × Task)
  | m, r, [] => ((m, r), [])
  | m, r, p :: ps =>
    let st := (r.SavePtr grow m p).1
    ((savePtrAll grow st.1 st.2 ps).1,
      (m.load p, st.1.load p) :: (savePtrAll grow st.1 st.2 ps).2)

/-- The pointer is an allocated address and does not point at an element the
store holds. -/
def Owned (m : Memory) (r : InMemoryRepo) (p : TaskPtr) : Prop :=
  p.array < m.next ∧ ¬ (p.array = r.tasks.array ∧ p.index < r.tasks.len)

/-- Each pointer of the sequence is `Owned` when its `Save` is called. -/
def OwnedAll (grow : Nat → Nat) : Memory → InMemoryRepo → List TaskPtr → Prop
  | _, _, [] => True
  | m, r, p :: ps =>
    Owned m r p ∧
      OwnedAll grow (r.SavePtr grow m p).1.1 (r.SavePtr grow m p).1.2 ps

instance Owned.decidable (m : Memory) (r : InMemoryRepo) (p : TaskPtr) :
    Decidable (Owned m r p) :=
  inferInstanceAs
    (Decidable (p.array < m.next ∧ ¬ (p.array = r.tasks.array ∧ p.index < r.tasks.len)))

/-- `OwnedAll` is decided call by call. -/
def OwnedAll.decidable (grow : Nat → Nat) :
    (m : Memory) → (r : InMemoryRepo) → (ps : List TaskPtr) → Decidable (OwnedAll grow m r ps)
  | _, _, [] => isTrue trivial
  | m, r, p :: ps =>
    have := OwnedAll.decidable grow (r.SavePtr grow m p).1.1 (r.SavePtr grow m p).1.2 ps
    inferInstanceAs (Decidable (Owned m r p ∧
      OwnedAll grow (r.SavePtr grow m p).1.1 (r.SavePtr grow m p).1.2 ps))

instance OwnedAll.instDecidable (grow : Nat → Nat) (m : Memory) (r : InMemoryRepo)
    (ps : List TaskPtr) : Decidable (OwnedAll grow m r ps) :=
  OwnedAll.decidable grow m r ps

/-- Memory of the example: one task titled `a` allocated on its own. -/
def oneTask : Memory × TaskPtr :=
  Memory.init.newTask ⟨0, "a", false, Time.zero, Time.zero⟩

/-- The example of a task saved twice: the task of `oneTask` is saved into a
fresh store, `GetAll` is called, and `Save` is called on `&got[0]`, the first
element of the slice `GetAll` returned. -/
def savedTwice : (Memory × InMemoryRepo) × List (Task × Task) :=
  let first := (NewInMemoryRepo.SavePtr (fun c => 2 * c) oneTask.1 oneTask.2).1
  let got := (first.2.GetAll first.1).2.1
  savePtrAll (fun c => 2 * c) oneTask.1 NewInMemoryRepo [oneTask.2, got.elem 0]

end Ref

/-! ## Lemmas: Go `int` -/

theorem wrapInt_of_inRange (x : Int) (hlo : -9223372036854775808 ≤ x)
    (hhi : x ≤ 9223372036854775807) : wrapInt x = x := by
  unfold wrapInt
  omega

theorem wrapInt_succ (x : Int) : wrapInt (wrapInt x + 1) = wrapInt (x + 1) := by
  unfold wrapInt
  omega

theorem wrapInt_add (x y : Int) : wrapInt (wrapInt x + y) = wrapInt (x + y) := by
  unfold wrapInt
  omega

theorem wrapInt_idem (x : Int) : wrapInt (wrapInt x) = wrapInt x := by
  unfold wrapInt
  omega

/-- Two positions less than `2^64` apart get different ids. -/
theorem wrapInt_ne (i j : Int) (hij : i < j) (hclose : j - i < 18446744073709551616) :
    wrapInt i ≠ wrapInt j := by
  unfold wrapInt
  omega

/-! ## Lemmas: the store -/

theorem Save_fst (r : InMemoryRepo) (task : Task) :
    (r.Save task).1 =
      { tasks := r.tasks ++ [{ task with ID := r.nextID }],
        nextID := wrapInt (r.nextID + 1) } := rfl

theorem Save_snd (r : InMemoryRepo) (task : Task) :
    (r.Save task).2 = ({ task with ID := r.nextID }, none) := rfl

theorem CreateTask_empty {σ : Type} (s : TaskService σ) (st : σ) :
    s.CreateTask st "" = (st, none, some "el título no puede estar vacío") := by
  simp [TaskService.CreateTask]

theorem CreateTask_inMemory (r : InMemoryRepo) (title : String) (hne : title ≠ "") :
    (NewTaskService inMemory).CreateTask r title =
      ({ tasks := r.tasks ++ [{ ID := r.nextID, Title := title, IsCompleted := false,
                                CreatedAt := Time.zero, UpdatedAt := Time.zero }],
         nextID := wrapInt (r.nextID + 1) },
       some { ID := r.nextID, Title := title, IsCompleted := false,
              CreatedAt := Time.zero, UpdatedAt := Time.zero },
       none) := by
  simp [TaskService.CreateTask, hne, NewTaskService, inMemory, InMemoryRepo.Save]

theorem Sequential_new : Sequential NewInMemoryRepo := by
  constructor
  · simp [NewInMemoryRepo, wrapInt]
  · intro i t h
    simp [NewInMemoryRepo] at h

theorem Sequential_Save (r : InMemoryRepo) (task : Task) (h : Sequential r) :
    Sequential (r.Save task).1 := by
  obtain ⟨hn, hids⟩ := h
  rw [Save_fst]
  constructor
  · simp only [List.length_append, List.length_singleton, Nat.cast_add, Nat.cast_one]
    rw [hn, wrapInt_succ]
  · intro i t hi
    simp only at hi
    by_cases hlt : i < r.tasks.length
    · rw [List.getElem?_append_left hlt] at hi
      exact hids i t hi
    · have hge : r.tasks.length ≤ i := Nat.le_of_not_lt hlt
      rw [List.getElem?_append_right hge] at hi
      have hz : i - r.tasks.length = 0 := by
        by_contra hnz
        have : (([{ task with ID := r.nextID }] : List Task))[i - r.tasks.length]? = none := by
          apply List.getElem?_eq_none
          simp only [List.length_singleton]
          omega
        rw [this] at hi
        exact Option.noConfusion hi
      have hi0 : i = r.tasks.length := by omega
      rw [hz] at hi
      simp only [List.getElem?_cons_zero, Option.some.injEq] at hi
      rw [← hi, hi0]
      exact hn

theorem Sequential_CreateTask (r : InMemoryRepo) (title : String) (h : Sequential r) :
    Sequential ((NewTaskService inMemory).CreateTask r title).1 := by
  by_cases hne : title = ""
  · subst hne
    rw [CreateTask_empty]
    exact h
  · have := Sequential_Save r ⟨0, title, false, Time.zero, Time.zero⟩ h
    rw [CreateTask_inMemory r title hne]
    rw [Save_fst] at this
    exact this

theorem Sequential_apply (r : InMemoryRepo) (c : Call) (h : Sequential r) :
    Sequential (Call.apply r c) := by
  cases c with
  | save task => exact Sequential_Save r task h
  | create title => exact Sequential_CreateTask r title h

theorem Sequential_runCalls (cs : List Call) (r : InMemoryRepo) (h : Sequential r) :
    Sequential (runCalls cs r) := by
  induction cs generalizing r with
  | nil => exact h
  | cons c cs ih => exact ih (Call.apply r c) (Sequential_apply r c h)

/-- In a sequential store with room left, the next id is positive and new. -/
theorem Sequential_nextID_fresh (r : InMemoryRepo) (h : Sequential r)
    (hroom : (r.tasks.length : Int) < maxInt) :
    0 < r.nextID ∧ ∀ u ∈ r.tasks, u.ID ≠ r.nextID := by
  obtain ⟨hn, hids⟩ := h
  unfold maxInt at hroom
  have hnext : r.nextID = (r.tasks.length : Int) + 1 := by
    rw [hn]
    apply wrapInt_of_inRange <;> omega
  refine ⟨by omega, ?_⟩
  intro u hu
  obtain ⟨i, hi, hget⟩ := List.getElem_of_mem hu
  have hsome : r.tasks[i]? = some u := by
    rw [List.getElem?_eq_getElem hi, hget]
  have hid := hids i u hsome
  have hw : wrapInt ((i : Int) + 1) = (i : Int) + 1 := by
    apply wrapInt_of_inRange <;> omega
  rw [hid, hw, hnext]
  omega

/-! ## Lemmas: the store with its slice kept as a slice -/

theorem Ref.view_eq_map (m : Ref.Memory) (s : Ref.Slice) :
    m.view s = (List.range s.len).map (m.cell s.array) := rfl

/-- After `append` the slice holds what it held, then the new element. -/
theorem Ref.view_append (grow : Nat → Nat) (m : Ref.Memory) (s : Ref.Slice) (x : Task) :
    (m.append grow s x).1.view (m.append grow s x).2 = m.view s ++ [x] := by
  unfold Ref.Memory.append
  by_cases hcap : s.len < s.cap
  · simp only [hcap, if_true, Ref.view_eq_map, List.range_succ, List.map_append,
      List.map_cons, List.map_nil, and_self, if_true]
    congr 1
    apply List.map_congr_left
    intro j hj
    have hlt : j < s.len := List.mem_range.mp hj
    have hne : j ≠ s.len := Nat.ne_of_lt hlt
    simp [hne]
  · simp only [hcap, if_false, Ref.view_eq_map, List.range_succ, List.map_append,
      List.map_cons, List.map_nil, if_true, lt_irrefl]
    congr 1
    apply List.map_congr_left
    intro j hj
    have hlt : j < s.len := List.mem_range.mp hj
    simp [hlt]

/-- `Save` on the slice-level store is `Save` on the sequence-level store. -/
theorem Ref.abs_Save (grow : Nat → Nat) (m : Ref.Memory) (r : Ref.InMemoryRepo) (task : Task) :
    Ref.abs (r.Save grow m task).1.1 (r.Save grow m task).1.2 = ((Ref.abs m r).Save task).1 ∧
      (r.Save grow m task).2 = ((Ref.abs m r).Save task).2 := by
  constructor
  · rw [Save_fst]
    simp only [Ref.abs, Ref.InMemoryRepo.Save]
    rw [Ref.view_append]
  · rfl

/-- The slice `GetAll` hands out holds the sequence of the sequence-level
`GetAll`, and the store is left as it was. -/
theorem Ref.abs_GetAll (m : Ref.Memory) (r : Ref.InMemoryRepo) :
    (r.GetAll m).1 = (m, r) ∧
      m.view (r.GetAll m).2.1 = ((Ref.abs m r).GetAll).2.1 ∧
      (r.GetAll m).2.2 = ((Ref.abs m r).GetAll).2.2 :=
  ⟨rfl, rfl, rfl⟩

/-- Element `i` of a slice after the assignment `s[i] = x`. -/
theorem Ref.view_store (m m1 : Ref.Memory) (s : Ref.Slice) (i : Nat) (x : Task)
    (h : m.store s i x = some m1) : m1.view s = (m.view s).set i x := by
  unfold Ref.Memory.store at h
  by_cases hi : i < s.len
  · simp only [hi, if_true, Option.some.injEq] at h
    subst h
    apply List.ext_getElem?
    intro j
    rw [List.getElem?_set]
    simp only [Ref.view_eq_map, List.length_map, List.length_range, List.getElem?_map]
    by_cases hj : j < s.len
    · rw [List.getElem?_range hj]
      by_cases hij : i = j
      · subst hij
        simp [hi]
      · have hji : ¬ j = i := fun h => hij h.symm
        simp [hij, hji]
    · rw [List.getElem?_eq_none (by simpa using Nat.le_of_not_lt hj)]
      by_cases hij : i = j
      · subst hij
        exact absurd hi hj
      · simp [hij]
  · simp [hi] at h

/-! ## Lemmas: `Save` through its pointer -/

theorem Ref.load_setID (m : Ref.Memory) (p : Ref.TaskPtr) (id : Int) :
    (m.setID p id).load p = { m.load p with ID := id } := by
  simp [Ref.Memory.setID, Ref.Memory.load]

/-- Writing an id through a pointer that points at no element of a slice
leaves the slice as it was. -/
theorem Ref.view_setID (m : Ref.Memory) (s : Ref.Slice) (p : Ref.TaskPtr) (id : Int)
    (hp : ¬ (p.array = s.array ∧ p.index < s.len)) : (m.setID p id).view s = m.view s := by
  rw [Ref.view_eq_map, Ref.view_eq_map]
  apply List.map_congr_left
  intro j hj
  have hlt : j < s.len := List.mem_range.mp hj
  have hno : ¬ (s.array = p.array ∧ j = p.index) := by
    rintro ⟨ha, hjp⟩
    exact hp ⟨ha.symm, by omega⟩
  simp [Ref.Memory.setID, hno]

/-- `Save` on a pointer that points at no stored element appends the task
behind the pointer, with the id assigned. -/
theorem Ref.SavePtr_view (grow : Nat → Nat) (m : Ref.Memory) (r : Ref.InMemoryRepo)
    (p : Ref.TaskPtr) (hp : ¬ (p.array = r.tasks.array ∧ p.index < r.tasks.len)) :
    (r.SavePtr grow m p).1.1.view (r.SavePtr grow m p).1.2.tasks =
      m.view r.tasks ++ [{ m.load p with ID := r.nextID }] := by
  simp only [Ref.InMemoryRepo.SavePtr]
  rw [Ref.view_append, Ref.view_setID m r.tasks p r.nextID hp, Ref.load_setID]

/-- When `Save` returns, the task behind an allocated pointer is the task that
was there with the id assigned. -/
theorem Ref.SavePtr_load (grow : Nat → Nat) (m : Ref.Memory) (r : Ref.InMemoryRepo)
    (p : Ref.TaskPtr) (hp : p.array < m.next) :
    (r.SavePtr grow m p).1.1.load p = { m.load p with ID := r.nextID } := by
  rw [← Ref.load_setID]
  simp only [Ref.InMemoryRepo.SavePtr, Ref.Memory.append]
  have hnext : (m.setID p r.nextID).next = m.next := rfl
  by_cases hcap : r.tasks.len < r.tasks.cap
  · simp only [hcap, if_true]
    by_cases hat : p.array = r.tasks.array ∧ p.index = r.tasks.len
    · simp [Ref.Memory.load, hat]
    · simp [Ref.Memory.load, hat]
  · simp only [hcap, if_false]
    have hne : ¬ p.array = m.next := Nat.ne_of_lt hp
    simp [Ref.Memory.load, hnext, hne]

theorem Ref.SavePtr_nextID (grow : Nat → Nat) (m : Ref.Memory) (r : Ref.InMemoryRepo)
    (p : Ref.TaskPtr) : (r.SavePtr grow m p).1.2.nextID = wrapInt (r.nextID + 1) := rfl

/-- `Save` through a pointer that points at no stored element is `Save` on the
sequence-level store, applied to the task behind the pointer. -/
theorem Ref.abs_SavePtr (grow : Nat → Nat) (m : Ref.Memory) (r : Ref.InMemoryRepo)
    (p : Ref.TaskPtr) (hp : ¬ (p.array = r.tasks.array ∧ p.index < r.tasks.len)) :
    Ref.abs (r.SavePtr grow m p).1.1 (r.SavePtr grow m p).1.2
        = ((Ref.abs m r).Save (m.load p)).1 ∧
      (r.SavePtr grow m p).2 = ((Ref.abs m r).Save (m.load p)).2.2 := by
  constructor
  · rw [Save_fst]
    show TodoClean.InMemoryRepo.mk _ _ = _
    rw [Ref.SavePtr_view grow m r p hp, Ref.SavePtr_nextID]
    rfl
  · rfl

theorem Ref.savePtrAll_nil (grow : Nat → Nat) (m : Ref.Memory) (r : Ref.InMemoryRepo) :
    Ref.savePtrAll grow m r [] = ((m, r), []) := rfl

theorem Ref.savePtrAll_cons (grow : Nat → Nat) (m : Ref.Memory) (r : Ref.InMemoryRepo)
    (p : Ref.TaskPtr) (ps : List Ref.TaskPtr) :
    Ref.savePtrAll grow m r (p :: ps) =
      ((Ref.savePtrAll grow (r.SavePtr grow m p).1.1 (r.SavePtr grow m p).1.2 ps).1,
        (m.load p, (r.SavePtr grow m p).1.1.load p) ::
          (Ref.savePtrAll grow (r.SavePtr grow m p).1.1 (r.SavePtr grow m p).1.2 ps).2) := rfl

theorem Ref.savePtrAll_length (grow : Nat → Nat) (ps : List Ref.TaskPtr) (m : Ref.Memory)
    (r : Ref.InMemoryRepo) : (Ref.savePtrAll grow m r ps).2.length = ps.length := by
  induction ps generalizing m r with
  | nil => rfl
  | cons p ps ih =>
    rw [Ref.savePtrAll_cons]
    simp [ih]

/-- After saves on owned pointers the store holds what it held before, then the
tasks the saves left behind their pointers, in call order. -/
theorem Ref.savePtrAll_view (grow : Nat → Nat) (ps : List Ref.TaskPtr) (m : Ref.Memory)
    (r : Ref.InMemoryRepo) (h : Ref.OwnedAll grow m r ps) :
    (Ref.savePtrAll grow m r ps).1.1.view (Ref.savePtrAll grow m r ps).1.2.tasks =
      m.view r.tasks ++ (Ref.savePtrAll grow m r ps).2.map Prod.snd := by
  induction ps generalizing m r with
  | nil => simp [Ref.savePtrAll_nil]
  | cons p ps ih =>
    obtain ⟨⟨halloc, hp⟩, hrest⟩ := h
    rw [Ref.savePtrAll_cons]
    simp only [List.map_cons]
    rw [ih _ _ hrest, Ref.SavePtr_view grow m r p hp, Ref.SavePtr_load grow m r p halloc]
    simp

/-- The save at position `i` (from 0) on an owned pointer leaves behind it the
task that was there, but for the id, which is `nextID + i` as a Go `int`. -/
theorem Ref.savePtrAll_getElem? (grow : Nat → Nat) (ps : List Ref.TaskPtr) (m : Ref.Memory)
    (r : Ref.InMemoryRepo) (h : Ref.OwnedAll grow m r ps)
    (hn : wrapInt r.nextID = r.nextID) (i : Nat) :
    ((Ref.savePtrAll grow m r ps).2.map Prod.snd)[i]? =
      (((Ref.savePtrAll grow m r ps).2.map Prod.fst)[i]?).map
        (fun t => { t with ID := wrapInt (r.nextID + (i : Int)) }) := by
  induction ps generalizing m r i with
  | nil => simp [Ref.savePtrAll_nil]
  | cons p ps ih =>
    obtain ⟨⟨halloc, _⟩, hrest⟩ := h
    rw [Ref.savePtrAll_cons]
    simp only [List.map_cons]
    cases i with
    | zero =>
      simp only [List.getElem?_cons_zero, Option.map_some', Nat.cast_zero, add_zero]
      rw [hn, Ref.SavePtr_load grow m r p halloc]
    | succ j =>
      simp only [List.getElem?_cons_succ]
      rw [ih _ _ hrest (by rw [Ref.SavePtr_nextID]; exact wrapInt_idem _) j,
        Ref.SavePtr_nextID]
      simp only [Nat.cast_add, Nat.cast_one]
      rw [wrapInt_add]
      have : r.nextID + 1 + (j : Int) = r.nextID + ((j : Int) + 1) := by ring
      rw [this]

/-! ## Lemmas: sequences of saves -/

theorem saveAll_nil (r : InMemoryRepo) : saveAll r [] = (r, []) := rfl

theorem saveAll_cons (r : InMemoryRepo) (task : Task) (rest : List Task) :
    saveAll r (task :: rest) =
      ((saveAll (r.Save task).1 rest).1,
        { task with ID := r.nextID } :: (saveAll (r.Save task).1 rest).2) := rfl

/-- The store after the saves holds what it held before, then the saved tasks
in call order. -/
theorem saveAll_tasks (ts : List Task) (r : InMemoryRepo) :
    (saveAll r ts).1.tasks = r.tasks ++ (saveAll r ts).2 := by
  induction ts generalizing r with
  | nil => simp [saveAll_nil]
  | cons task rest ih =>
    rw [saveAll_cons]
    simp only
    rw [ih, Save_fst]
    simp

theorem saveAll_length (ts : List Task) (r : InMemoryRepo) :
    (saveAll r ts).2.length = ts.length := by
  induction ts generalizing r with
  | nil => simp [saveAll_nil]
  | cons task rest ih =>
    rw [saveAll_cons]
    simp [ih]

/-- The save at position `i` (from 0) leaves its task unchanged but for the id,
which is `nextID + i` as a Go `int`. -/
theorem saveAll_getElem? (ts : List Task) (r : InMemoryRepo)
    (hn : wrapInt r.nextID = r.nextID) (i : Nat) :
    (saveAll r ts).2[i]? =
      (ts[i]?).map (fun t => { t with ID := wrapInt (r.nextID + (i : Int)) }) := by
  induction ts generalizing r i with
  | nil => simp [saveAll_nil]
  | cons task rest ih =>
    rw [saveAll_cons]
    cases i with
    | zero =>
      simp only [List.getElem?_cons_zero, Option.map_some', Nat.cast_zero, add_zero]
      rw [hn]
    | succ j =>
      simp only [List.getElem?_cons_succ]
      rw [ih (r.Save task).1 (by rw [Save_fst]; exact wrapInt_idem _) j, Save_fst]
      simp only [Nat.cast_add, Nat.cast_one]
      rw [wrapInt_add]
      have : r.nextID + 1 + (j : Int) = r.nextID + ((j : Int) + 1) := by ring
      rw [this]

/-! ## Lemmas: sequences of `CreateTask` calls -/

theorem createAll_nil (r : InMemoryRepo) : createAll [] r = r := rfl

theorem createAll_cons (title : String) (rest : List String) (r : InMemoryRepo) :
    createAll (title :: rest) r =
      createAll rest ((NewTaskService inMemory).CreateTask r title).1 := rfl

theorem createAll_append (xs ys : List String) (r : InMemoryRepo) :
    createAll (xs ++ ys) r = createAll ys (createAll xs r) := by
  simp [createAll, List.foldl_append]

theorem Sequential_createAll (titles : List String) (r : InMemoryRepo) (h : Sequential r) :
    Sequential (createAll titles r) := by
  induction titles generalizing r with
  | nil => exact h
  | cons title rest ih =>
    rw [createAll_cons]
    exact ih _ (Sequential_CreateTask r title h)

/-- One `CreateTask` call only ever adds at the end. -/
theorem CreateTask_tasks (r : InMemoryRepo) (title : String) :
    ((NewTaskService inMemory).CreateTask r title).1.tasks = r.tasks ∨
      (title ≠ "" ∧ ((NewTaskService inMemory).CreateTask r title).1.tasks =
        r.tasks ++ [⟨r.nextID, title, false, Time.zero, Time.zero⟩]) := by
  by_cases hne : title = ""
  · subst hne
    rw [CreateTask_empty]
    exact Or.inl rfl
  · rw [CreateTask_inMemory r title hne]
    exact Or.inr ⟨hne, rfl⟩

theorem createAll_titles (titles : List String) (r : InMemoryRepo)
    (h : ∀ t ∈ r.tasks, t.Title ≠ "") : ∀ t ∈ (createAll titles r).tasks, t.Title ≠ "" := by
  induction titles generalizing r with
  | nil => exact h
  | cons title rest ih =>
    rw [createAll_cons]
    apply ih
    intro t ht
    rcases CreateTask_tasks r title with heq | ⟨hne, heq⟩
    · rw [heq] at ht
      exact h t ht
    · rw [heq, List.mem_append, List.mem_singleton] at ht
      rcases ht with ht | ht
      · exact h t ht
      · rw [ht]
        exact hne

theorem createAll_length_le (titles : List String) (r : InMemoryRepo) :
    (createAll titles r).tasks.length ≤ r.tasks.length + titles.length := by
  induction titles generalizing r with
  | nil => simp [createAll_nil]
  | cons title rest ih =>
    rw [createAll_cons]
    have hstep := ih ((NewTaskService inMemory).CreateTask r title).1
    rcases CreateTask_tasks r title with heq | ⟨_, heq⟩
    · rw [heq] at hstep
      simp only [List.length_cons]
      omega
    · rw [heq] at hstep
      simp only [List.length_append, List.length_singleton] at hstep
      simp only [List.length_cons]
      omega

/-- A sequential store of at most `2^64` tasks holds no id twice. -/
theorem Sequential_nodup (r : InMemoryRepo) (h : Sequential r)
    (hlen : (r.tasks.length : Int) ≤ 18446744073709551616) :
    (r.tasks.map Task.ID).Nodup := by
  rw [List.nodup_iff_getElem?_ne_getElem?]
  intro i j hij hj
  rw [List.length_map] at hj
  have hi : i < r.tasks.length := by omega
  rw [List.getElem?_map, List.getElem?_map, List.getElem?_eq_getElem hi,
    List.getElem?_eq_getElem hj]
  simp only [Option.map_some', ne_eq, Option.some.injEq]
  rw [h.2 i _ (List.getElem?_eq_getElem hi), h.2 j _ (List.getElem?_eq_getElem hj)]
  apply wrapInt_ne <;> omega

/-! ## The service on the in-memory store -/

/-- C1: in every store state reached from `NewInMemoryRepo` by `Save` and
`CreateTask` calls, `CreateTask` with a non-empty title returns no error and a
task with exactly that title, `IsCompleted = false`, and an id that is
strictly positive and differs from the id of every task already in the store.
The store holds fewer than `2^63 - 1` tasks, so that `nextID` has not wrapped;
no Go slice is longer. -/
theorem CreateTask_nonempty_title (cs : List Call) (title : String) (hne : title ≠ "")
    (hroom : ((runCalls cs NewInMemoryRepo).tasks.length : Int) < maxInt) :
    ∃ task : Task,
      ((NewTaskService inMemory).CreateTask (runCalls cs NewInMemoryRepo) title).2
          = (some task, none) ∧
        task.Title = title ∧ task.IsCompleted = false ∧ 0 < task.ID ∧
        ∀ u ∈ (runCalls cs NewInMemoryRepo).tasks, u.ID ≠ task.ID := by
  have hseq := Sequential_runCalls cs NewInMemoryRepo Sequential_new
  obtain ⟨hpos, hnew⟩ := Sequential_nextID_fresh _ hseq hroom
  refine ⟨⟨(runCalls cs NewInMemoryRepo).nextID, title, false, Time.zero, Time.zero⟩,
    ?_, rfl, rfl, hpos, hnew⟩
  rw [CreateTask_inMemory _ title hne]

/-- C1 at a concrete input: after a `Save` of a task with a pre-set id and a
`CreateTask "a"`, `CreateTask "b"` is as the theorem says. -/
theorem CreateTask_nonempty_title_witness :
    ∃ task : Task,
      ((NewTaskService inMemory).CreateTask
          (runCalls [Call.save ⟨7, "x", true, Time.zero, Time.zero⟩, Call.create "a"]
            NewInMemoryRepo) "b").2 = (some task, none) ∧
        task.Title = "b" ∧ task.IsCompleted = false ∧ 0 < task.ID ∧
        ∀ u ∈ (runCalls [Call.save ⟨7, "x", true, Time.zero, Time.zero⟩, Call.create "a"]
            NewInMemoryRepo).tasks, u.ID ≠ task.ID :=
  CreateTask_nonempty_title
    [Call.save ⟨7, "x", true, Time.zero, Time.zero⟩, Call.create "a"] "b"
    (by decide) (by decide)

/-- C2: for the empty title and every store state, `CreateTask ""` returns no
task and the validation error, and leaves the store as it was: `GetAll` gives
the same sequence and the next id to assign is the same, before and after. -/
theorem CreateTask_empty_title (r : InMemoryRepo) :
    ((NewTaskService inMemory).CreateTask r "").2
        = (none, some "el título no puede estar vacío") ∧
      ((NewTaskService inMemory).CreateTask r "").1 = r ∧
      (((NewTaskService inMemory).CreateTask r "").1.GetAll).2 = (r.GetAll).2 ∧
      ((NewTaskService inMemory).CreateTask r "").1.nextID = r.nextID := by
  rw [CreateTask_empty]
  exact ⟨rfl, rfl, rfl, rfl⟩

/-- C10: for every non-empty title and every store state, `CreateTask`
succeeds and the task it returns is the stored one: `GetTasks` after the call
gives, without error, the sequence it gave before the call followed by exactly
the returned task (all five fields). -/
theorem CreateTask_returns_stored (r : InMemoryRepo) (title : String) (hne : title ≠ "") :
    ∃ task : Task,
      ((NewTaskService inMemory).CreateTask r title).2 = (some task, none) ∧
        ((NewTaskService inMemory).GetTasks
            ((NewTaskService inMemory).CreateTask r title).1).2
          = (((NewTaskService inMemory).GetTasks r).2.1 ++ [task], none) := by
  refine ⟨⟨r.nextID, title, false, Time.zero, Time.zero⟩, ?_, ?_⟩
  · rw [CreateTask_inMemory r title hne]
  · rw [CreateTask_inMemory r title hne]
    rfl

/-- C10 at a concrete input: a store already holding one task, title `"b"`. -/
theorem CreateTask_returns_stored_witness :
    ∃ task : Task,
      ((NewTaskService inMemory).CreateTask
          (runCalls [Call.create "a"] NewInMemoryRepo) "b").2 = (some task, none) ∧
        ((NewTaskService inMemory).GetTasks
            ((NewTaskService inMemory).CreateTask
              (runCalls [Call.create "a"] NewInMemoryRepo) "b").1).2
          = (((NewTaskService inMemory).GetTasks
              (runCalls [Call.create "a"] NewInMemoryRepo)).2.1 ++ [task], none) :=
  CreateTask_returns_stored (runCalls [Call.create "a"] NewInMemoryRepo) "b" (by decide)

/-- C9: in the state reached from a fresh store by any sequence of
`CreateTask` calls, empty titles included, every stored task has a non-empty
title, no two stored tasks share an id, and the tasks held before each call of
the sequence are an initial segment of the tasks held after it, so a stored
task keeps its id.  The number of calls is a Go `int`, at most `2^63 - 1`. -/
theorem CreateTask_store_invariants (titles : List String)
    (hlen : (titles.length : Int) ≤ maxInt) :
    (∀ t ∈ (createAll titles NewInMemoryRepo).tasks, t.Title ≠ "") ∧
      ((createAll titles NewInMemoryRepo).tasks.map Task.ID).Nodup ∧
      ∀ n : Nat, (createAll (titles.take n) NewInMemoryRepo).tasks <+:
        (createAll (titles.take (n + 1)) NewInMemoryRepo).tasks := by
  refine ⟨?_, ?_, ?_⟩
  · apply createAll_titles
    intro t ht
    simp [NewInMemoryRepo] at ht
  · apply Sequential_nodup _ (Sequential_createAll titles _ Sequential_new)
    have hle := createAll_length_le titles NewInMemoryRepo
    have h0 : NewInMemoryRepo.tasks.length = 0 := rfl
    unfold maxInt at hlen
    omega
  · intro n
    rw [List.take_succ, createAll_append]
    cases hget : titles[n]? with
    | none => exact List.prefix_refl _
    | some title =>
      show _ <+: ((NewTaskService inMemory).CreateTask
        (createAll (titles.take n) NewInMemoryRepo) title).1.tasks
      rcases CreateTask_tasks (createAll (titles.take n) NewInMemoryRepo) title
        with heq | ⟨_, heq⟩
      · rw [heq]
      · rw [heq]
        exact List.prefix_append _ _

/-- C9 at a concrete input: three calls, the second with the empty title. -/
theorem CreateTask_store_invariants_witness :
    (∀ t ∈ (createAll ["a", "", "b"] NewInMemoryRepo).tasks, t.Title ≠ "") ∧
      ((createAll ["a", "", "b"] NewInMemoryRepo).tasks.map Task.ID).Nodup ∧
      ∀ n : Nat, (createAll (["a", "", "b"].take n) NewInMemoryRepo).tasks <+:
        (createAll (["a", "", "b"].take (n + 1)) NewInMemoryRepo).tasks :=
  CreateTask_store_invariants ["a", "", "b"] (by decide)

/-! ## The in-memory store -/

/-- C3: for every sequence of tasks, whatever their titles and pre-set ids,
saved one after another into a fresh store, the `k`-th `Save` (counting from
1) assigns id exactly `k`.  `k` is a Go `int`, at most `2^63 - 1`. -/
theorem Save_assigns_sequential_ids (ts : List Task) (k : Nat) (hk1 : 1 ≤ k)
    (hkn : k ≤ ts.length) (hk : (k : Int) ≤ maxInt) :
    ((saveAll NewInMemoryRepo ts).2.map Task.ID)[k - 1]? = some (k : Int) := by
  have hget := saveAll_getElem? ts NewInMemoryRepo (by decide) (k - 1)
  have hlt : k - 1 < ts.length := by omega
  rw [List.getElem?_map, hget, List.getElem?_eq_getElem hlt]
  simp only [Option.map_some', Option.some.injEq]
  have hcast : ((k - 1 : Nat) : Int) = (k : Int) - 1 := by omega
  rw [hcast]
  unfold maxInt at hk
  show wrapInt (1 + ((k : Int) - 1)) = (k : Int)
  apply (wrapInt_of_inRange _ (by omega) (by omega)).trans
  omega

/-- C3 at a concrete input: three saves with equal, empty and pre-set
contents; the third gets id 3. -/
theorem Save_assigns_sequential_ids_witness :
    ((saveAll NewInMemoryRepo
        [⟨40, "b", true, Time.zero, Time.zero⟩, ⟨-3, "", false, Time.zero, Time.zero⟩,
         ⟨40, "b", true, Time.zero, Time.zero⟩]).2.map Task.ID)[3 - 1]? = some ((3 : Nat) : Int) :=
  Save_assigns_sequential_ids
    [⟨40, "b", true, Time.zero, Time.zero⟩, ⟨-3, "", false, Time.zero, Time.zero⟩,
     ⟨40, "b", true, Time.zero, Time.zero⟩] 3 (by decide) (by decide) (by decide)

/-- C4, as the claim words it, fails: a task is saved into a fresh store and
gets id 1; `GetAll` is called and `Save` is called on the first element of the
slice it returned, which gets id 2.  `GetAll` then returns two tasks with id
2: its first element no longer has the id that the first `Save` assigned. -/
theorem GetAll_after_save_of_stored :
    Ref.savedTwice.2 =
        [(⟨0, "a", false, Time.zero, Time.zero⟩, ⟨1, "a", false, Time.zero, Time.zero⟩),
         (⟨1, "a", false, Time.zero, Time.zero⟩, ⟨2, "a", false, Time.zero, Time.zero⟩)] ∧
      Ref.savedTwice.1.1.view (Ref.savedTwice.1.2.GetAll Ref.savedTwice.1.1).2.1
        = [⟨2, "a", false, Time.zero, Time.zero⟩, ⟨2, "a", false, Time.zero, Time.zero⟩] ∧
      (Ref.savedTwice.1.1.view (Ref.savedTwice.1.2.GetAll Ref.savedTwice.1.1).2.1)[0]?
        ≠ (Ref.savedTwice.2.map Prod.snd)[0]? := by
  decide

/-- C4, amended: after any sequence of `Save` calls on a fresh store, none of
them on a pointer to an element the store holds at that call, `GetAll` (and
`GetTasks` of the service) returns no error and the tasks the saves stored, in
call order: as many as there were saves, the `i`-th being the task given to
the `i`-th `Save` with only the id replaced by the one that `Save` assigned.
With no save the sequence is empty. -/
theorem GetAll_insertion_order (grow : Nat → Nat) (m : Ref.Memory) (ps : List Ref.TaskPtr)
    (howned : Ref.OwnedAll grow m Ref.NewInMemoryRepo ps) :
    ((Ref.savePtrAll grow m Ref.NewInMemoryRepo ps).1.2.GetAll
        (Ref.savePtrAll grow m Ref.NewInMemoryRepo ps).1.1).2.2 = none ∧
      (Ref.savePtrAll grow m Ref.NewInMemoryRepo ps).1.1.view
          ((Ref.savePtrAll grow m Ref.NewInMemoryRepo ps).1.2.GetAll
            (Ref.savePtrAll grow m Ref.NewInMemoryRepo ps).1.1).2.1
        = (Ref.savePtrAll grow m Ref.NewInMemoryRepo ps).2.map Prod.snd ∧
      ((NewTaskService inMemory).GetTasks
          (Ref.abs (Ref.savePtrAll grow m Ref.NewInMemoryRepo ps).1.1
            (Ref.savePtrAll grow m Ref.NewInMemoryRepo ps).1.2)).2
        = ((Ref.savePtrAll grow m Ref.NewInMemoryRepo ps).2.map Prod.snd, none) ∧
      (Ref.savePtrAll grow m Ref.NewInMemoryRepo ps).2.length = ps.length ∧
      (∀ i : Nat,
        ((Ref.savePtrAll grow m Ref.NewInMemoryRepo ps).2.map Prod.snd)[i]? =
          (((Ref.savePtrAll grow m Ref.NewInMemoryRepo ps).2.map Prod.fst)[i]?).map
            (fun t => { t with ID := wrapInt (1 + (i : Int)) })) ∧
      m.view (Ref.NewInMemoryRepo.GetAll m).2.1 = [] := by
  have hview := Ref.savePtrAll_view grow ps m Ref.NewInMemoryRepo howned
  have hfresh : m.view Ref.NewInMemoryRepo.tasks = [] := rfl
  rw [hfresh, List.nil_append] at hview
  refine ⟨rfl, hview, ?_, Ref.savePtrAll_length grow ps m _, ?_, rfl⟩
  · show ((Ref.savePtrAll grow m Ref.NewInMemoryRepo ps).1.1.view
      (Ref.savePtrAll grow m Ref.NewInMemoryRepo ps).1.2.tasks, none) = _
    rw [hview]
  · intro i
    exact Ref.savePtrAll_getElem? grow ps m Ref.NewInMemoryRepo howned (by decide) i

/-- C4, amended, at a concrete input: two tasks allocated on their own, the
first saved, then the second, then the first again. -/
theorem GetAll_insertion_order_witness :
    ((Ref.savePtrAll (fun c => 2 * c) (Ref.oneTask.1.newTask ⟨7, "b", true, Time.zero, Time.zero⟩).1
        Ref.NewInMemoryRepo [⟨1, 0⟩, ⟨2, 0⟩, ⟨1, 0⟩]).1.2.GetAll
        (Ref.savePtrAll (fun c => 2 * c) (Ref.oneTask.1.newTask ⟨7, "b", true, Time.zero, Time.zero⟩).1
        Ref.NewInMemoryRepo [⟨1, 0⟩, ⟨2, 0⟩, ⟨1, 0⟩]).1.1).2.2 = none ∧
      (Ref.savePtrAll (fun c => 2 * c) (Ref.oneTask.1.newTask ⟨7, "b", true, Time.zero, Time.zero⟩).1
        Ref.NewInMemoryRepo [⟨1, 0⟩, ⟨2, 0⟩, ⟨1, 0⟩]).1.1.view
          ((Ref.savePtrAll (fun c => 2 * c) (Ref.oneTask.1.newTask ⟨7, "b", true, Time.zero, Time.zero⟩).1
        Ref.NewInMemoryRepo [⟨1, 0⟩, ⟨2, 0⟩, ⟨1, 0⟩]).1.2.GetAll
            (Ref.savePtrAll (fun c => 2 * c) (Ref.oneTask.1.newTask ⟨7, "b", true, Time.zero, Time.zero⟩).1
        Ref.NewInMemoryRepo [⟨1, 0⟩, ⟨2, 0⟩, ⟨1, 0⟩]).1.1).2.1
        = (Ref.savePtrAll (fun c => 2 * c) (Ref.oneTask.1.newTask ⟨7, "b", true, Time.zero, Time.zero⟩).1
        Ref.NewInMemoryRepo [⟨1, 0⟩, ⟨2, 0⟩, ⟨1, 0⟩]).2.map Prod.snd ∧
      ((NewTaskService inMemory).GetTasks
          (Ref.abs (Ref.savePtrAll (fun c => 2 * c) (Ref.oneTask.1.newTask ⟨7, "b", true, Time.zero, Time.zero⟩).1
        Ref.NewInMemoryRepo [⟨1, 0⟩, ⟨2, 0⟩, ⟨1, 0⟩]).1.1
            (Ref.savePtrAll (fun c => 2 * c) (Ref.oneTask.1.newTask ⟨7, "b", true, Time.zero, Time.zero⟩).1
        Ref.NewInMemoryRepo [⟨1, 0⟩, ⟨2, 0⟩, ⟨1, 0⟩]).1.2)).2
        = ((Ref.savePtrAll (fun c => 2 * c) (Ref.oneTask.1.newTask ⟨7, "b", true, Time.zero, Time.zero⟩).1
        Ref.NewInMemoryRepo [⟨1, 0⟩, ⟨2, 0⟩, ⟨1, 0⟩]).2.map Prod.snd, none) ∧
      (Ref.savePtrAll (fun c => 2 * c) (Ref.oneTask.1.newTask ⟨7, "b", true, Time.zero, Time.zero⟩).1
        Ref.NewInMemoryRepo [⟨1, 0⟩, ⟨2, 0⟩, ⟨1, 0⟩]).2.length = [(⟨1, 0⟩ : Ref.TaskPtr), ⟨2, 0⟩, ⟨1, 0⟩].length ∧
      (∀ i : Nat,
        ((Ref.savePtrAll (fun c => 2 * c) (Ref.oneTask.1.newTask ⟨7, "b", true, Time.zero, Time.zero⟩).1
        Ref.NewInMemoryRepo [⟨1, 0⟩, ⟨2, 0⟩, ⟨1, 0⟩]).2.map Prod.snd)[i]? =
          (((Ref.savePtrAll (fun c => 2 * c) (Ref.oneTask.1.newTask ⟨7, "b", true, Time.zero, Time.zero⟩).1
        Ref.NewInMemoryRepo [⟨1, 0⟩, ⟨2, 0⟩, ⟨1, 0⟩]).2.map Prod.fst)[i]?).map
            (fun t => { t with ID := wrapInt (1 + (i : Int)) })) ∧
      (Ref.oneTask.1.newTask ⟨7, "b", true, Time.zero, Time.zero⟩).1.view (Ref.NewInMemoryRepo.GetAll (Ref.oneTask.1.newTask ⟨7, "b", true, Time.zero, Time.zero⟩).1).2.1 = [] :=
  GetAll_insertion_order (fun c => 2 * c)
    (Ref.oneTask.1.newTask ⟨7, "b", true, Time.zero, Time.zero⟩).1
    [⟨1, 0⟩, ⟨2, 0⟩, ⟨1, 0⟩] (by decide)

/-- C8, as the claim words it, fails: in the store holding the one saved task
`(1, a)`, overwriting element 0 of the slice that `GetAll` returned makes the
next `GetAll` return the overwriting task, not the task as it was saved. -/
theorem GetAll_overwrite_changes_store :
    Ref.oneSaved.1.1.view (Ref.oneSaved.1.2.GetAll Ref.oneSaved.1.1).2.1
        = [⟨1, "a", false, Time.zero, Time.zero⟩] ∧
      Ref.overwriteThenGetAll Ref.oneSaved.1.1 Ref.oneSaved.1.2 0
          ⟨99, "x", true, Time.zero, Time.zero⟩
        = some [⟨99, "x", true, Time.zero, Time.zero⟩] ∧
      Ref.overwriteThenGetAll Ref.oneSaved.1.1 Ref.oneSaved.1.2 0
          ⟨99, "x", true, Time.zero, Time.zero⟩
        ≠ some (Ref.oneSaved.1.1.view (Ref.oneSaved.1.2.GetAll Ref.oneSaved.1.1).2.1) := by
  decide

/-- C8, amended: for every store state, `GetAll` returns without error the
slice the store itself holds and leaves the store as it was, so what it
returns holds the tasks as saved; the slice is not a copy: after a caller
overwrites element `i` of it (`i` below its length) with `x`, the next
`GetAll` returns the same tasks except that element `i` is `x`. -/
theorem GetAll_shares_store (m : Ref.Memory) (r : Ref.InMemoryRepo) (i : Nat) (x : Task)
    (hi : i < r.tasks.len) :
    r.GetAll m = ((m, r), r.tasks, none) ∧
      m.view (r.GetAll m).2.1 = (Ref.abs m r).tasks ∧
      Ref.overwriteThenGetAll m r i x = some ((m.view r.tasks).set i x) ∧
      ((m.view r.tasks).set i x)[i]? = some x := by
  refine ⟨rfl, rfl, ?_, ?_⟩
  · unfold Ref.overwriteThenGetAll
    have hstore : ∃ m1, m.store r.tasks i x = some m1 := by
      simp [Ref.Memory.store, hi]
    obtain ⟨m1, hm1⟩ := hstore
    show (m.store r.tasks i x).map (fun m1 => m1.view r.tasks) = _
    rw [hm1]
    simp only [Option.map_some', Option.some.injEq]
    exact Ref.view_store m m1 r.tasks i x hm1
  · rw [List.getElem?_set]
    simp [Ref.view_eq_map, hi]

/-- C8, amended, at a concrete input: the store holding the one saved task,
element 0 overwritten. -/
theorem GetAll_shares_store_witness :
    Ref.oneSaved.1.2.GetAll Ref.oneSaved.1.1
        = ((Ref.oneSaved.1.1, Ref.oneSaved.1.2), Ref.oneSaved.1.2.tasks, none) ∧
      Ref.oneSaved.1.1.view (Ref.oneSaved.1.2.GetAll Ref.oneSaved.1.1).2.1
        = (Ref.abs Ref.oneSaved.1.1 Ref.oneSaved.1.2).tasks ∧
      Ref.overwriteThenGetAll Ref.oneSaved.1.1 Ref.oneSaved.1.2 0
          ⟨99, "x", true, Time.zero, Time.zero⟩
        = some ((Ref.oneSaved.1.1.view Ref.oneSaved.1.2.tasks).set 0
            ⟨99, "x", true, Time.zero, Time.zero⟩) ∧
      ((Ref.oneSaved.1.1.view Ref.oneSaved.1.2.tasks).set 0
          ⟨99, "x", true, Time.zero, Time.zero⟩)[0]?
        = some ⟨99, "x", true, Time.zero, Time.zero⟩ :=
  GetAll_shares_store Ref.oneSaved.1.1 Ref.oneSaved.1.2 0
    ⟨99, "x", true, Time.zero, Time.zero⟩ (by decide)

/-! ## The handler and the route -/

/-- C5: for every request body, whatever the JSON decoder makes of it, and
every state of the in-memory store, the create handler answers in one of two
ways.  Either the body failed to decode or the decoded title is empty: then
the status is 400, the body is a non-empty plain-text message, and the store
is unchanged.  Or the body decoded to a non-empty title: then the status is
201, the content type is `application/json`, the body is the task the service
returned, and the store is the one the service left. -/
theorem CreateTask_handler_response (decode : String → Except Error String)
    (r : InMemoryRepo) (req : Request) :
    ((((∃ e, decode req.Body = Except.error e) ∧
          (mainHandler.CreateTask decode r req).2 = httpError "JSON inválido" 400) ∨
        (decode req.Body = Except.ok "" ∧
          (mainHandler.CreateTask decode r req).2
            = httpError "el título no puede estar vacío" 400)) ∧
      (mainHandler.CreateTask decode r req).2.Status = 400 ∧
      (mainHandler.CreateTask decode r req).2.Header.lookup "Content-Type"
        = some "text/plain; charset=utf-8" ∧
      (∃ msg : String, msg ≠ "" ∧
        (mainHandler.CreateTask decode r req).2.Body = Payload.text msg) ∧
      (mainHandler.CreateTask decode r req).1 = r) ∨
    (∃ (title : String) (task : Task),
      decode req.Body = Except.ok title ∧ title ≠ "" ∧
      (mainHandler.service.CreateTask r title).2 = (some task, none) ∧
      (mainHandler.CreateTask decode r req).2.Status = 201 ∧
      (mainHandler.CreateTask decode r req).2.Header.lookup "Content-Type"
        = some "application/json" ∧
      (mainHandler.CreateTask decode r req).2.Body = Payload.task (some task) ∧
      (mainHandler.CreateTask decode r req).1 = (mainHandler.service.CreateTask r title).1) := by
  cases hd : decode req.Body with
  | error e =>
    left
    have hresp : mainHandler.CreateTask decode r req = (r, httpError "JSON inválido" 400) := by
      simp [TaskHandler.CreateTask, hd, StatusBadRequest]
    rw [hresp]
    refine ⟨Or.inl ⟨⟨e, rfl⟩, rfl⟩, rfl, rfl, ⟨_, ?_, rfl⟩, rfl⟩
    decide
  | ok title =>
    by_cases hne : title = ""
    · subst hne
      left
      have hresp : mainHandler.CreateTask decode r req
          = (r, httpError "el título no puede estar vacío" 400) := by
        simp [TaskHandler.CreateTask, hd, StatusBadRequest, CreateTask_empty]
      rw [hresp]
      refine ⟨Or.inr ⟨rfl, rfl⟩, rfl, rfl, ⟨_, ?_, rfl⟩, rfl⟩
      decide
    · right
      have hsvc := CreateTask_inMemory r title hne
      have hresp : mainHandler.CreateTask decode r req
          = (((NewTaskService inMemory).CreateTask r title).1,
              { Status := 201, Header := [("Content-Type", "application/json")],
                Body := Payload.task (some ⟨r.nextID, title, false, Time.zero, Time.zero⟩) }) := by
        simp [TaskHandler.CreateTask, hd, mainHandler, NewTaskHandler, hsvc, StatusCreated]
      refine ⟨title, ⟨r.nextID, title, false, Time.zero, Time.zero⟩, rfl, hne, ?_, ?_⟩
      · show ((NewTaskService inMemory).CreateTask r title).2 = _
        rw [hsvc]
      · rw [hresp]
        exact ⟨rfl, rfl, rfl, rfl⟩

/-- C6, as the claim words it, fails on the text of the body: a `DELETE` is
answered 405 with the line `Método no permitido`, not `Method not allowed`. -/
theorem tasksRoute_delete_body :
    (tasksRoute (fun _ => Except.error "EOF") mainHandler NewInMemoryRepo
        { Method := "DELETE", Body := "" }).2.Status = 405 ∧
      (tasksRoute (fun _ => Except.error "EOF") mainHandler NewInMemoryRepo
        { Method := "DELETE", Body := "" }).2.Body = Payload.text "Método no permitido\n" ∧
      (tasksRoute (fun _ => Except.error "EOF") mainHandler NewInMemoryRepo
        { Method := "DELETE", Body := "" }).2.Body ≠ Payload.text "Method not allowed" := by
  decide

/-- C6, amended: for every method string, handler and store state, the route
hands a `POST` to the create handler and a `GET` to the list handler, and
answers every other method itself, with status 405 and the plain-text line
`Método no permitido`, calling neither handler and leaving the store as it
was. -/
theorem tasksRoute_dispatch {σ : Type} (decode : String → Except Error String)
    (h : TaskHandler σ) (st : σ) (req : Request) :
    (req.Method = "POST" ∧ tasksRoute decode h st req = h.CreateTask decode st req) ∨
    (req.Method = "GET" ∧ tasksRoute decode h st req = h.GetAllTasks st req) ∨
    (req.Method ≠ "POST" ∧ req.Method ≠ "GET" ∧
      tasksRoute decode h st req =
        (st, { Status := 405,
               Header := [("Content-Type", "text/plain; charset=utf-8"),
                          ("X-Content-Type-Options", "nosniff")],
               Body := Payload.text "Método no permitido\n" })) := by
  by_cases hpost : req.Method = "POST"
  · left
    exact ⟨hpost, by simp [tasksRoute, MethodPost, hpost]⟩
  · by_cases hget : req.Method = "GET"
    · right; left
      refine ⟨hget, ?_⟩
      simp [tasksRoute, MethodPost, MethodGet, hget]
    · right; right
      refine ⟨hpost, hget, ?_⟩
      simp only [tasksRoute, MethodPost, MethodGet, hpost, hget, if_false]
      rfl

/-- C7, as the claim words it, fails: with a repository whose `Save` fails, a
create request with the title `a` is answered 400, which is no 5xx status. -/
theorem CreateTask_handler_save_error_400 :
    ((NewTaskHandler (NewTaskService failingRepo)).CreateTask
        (fun body => Except.ok body) () { Method := "POST", Body := "a" }).2.Status = 400 ∧
      ¬ (500 ≤ ((NewTaskHandler (NewTaskService failingRepo)).CreateTask
        (fun body => Except.ok body) () { Method := "POST", Body := "a" }).2.Status) := by
  decide

/-- C7, amended: for every repository whose `Save` returns an error on the new
task, a create request with a non-empty title is answered with status 400 and
the error's text as plain-text body, and the service returns no task: the
store error is passed on, as a client error. -/
theorem CreateTask_handler_save_error {σ : Type} (repo : TaskRepository σ)
    (decode : String → Except Error String) (st : σ) (req : Request)
    (title : String) (err : Error)
    (hdec : decode req.Body = Except.ok title) (hne : title ≠ "")
    (hsave : (repo.Save st ⟨0, title, false, Time.zero, Time.zero⟩).2.2 = some err) :
    ((NewTaskService repo).CreateTask st title).2 = (none, some err) ∧
      ((NewTaskHandler (NewTaskService repo)).CreateTask decode st req).2
        = httpError err 400 ∧
      ((NewTaskHandler (NewTaskService repo)).CreateTask decode st req).2.Status = 400 ∧
      ((NewTaskHandler (NewTaskService repo)).CreateTask decode st req).1
        = (repo.Save st ⟨0, title, false, Time.zero, Time.zero⟩).1 := by
  have hsvc : (NewTaskService repo).CreateTask st title
      = ((repo.Save st ⟨0, title, false, Time.zero, Time.zero⟩).1, none, some err) := by
    rcases hres : repo.Save st ⟨0, title, false, Time.zero, Time.zero⟩ with ⟨st1, saved, e⟩
    rw [hres] at hsave
    simp only at hsave
    subst hsave
    simp [TaskService.CreateTask, hne, NewTaskService, hres]
  have hresp : (NewTaskHandler (NewTaskService repo)).CreateTask decode st req
      = ((repo.Save st ⟨0, title, false, Time.zero, Time.zero⟩).1, httpError err 400) := by
    simp [TaskHandler.CreateTask, hdec, NewTaskHandler, hsvc, StatusBadRequest]
  rw [hsvc, hresp]
  exact ⟨rfl, rfl, rfl, rfl⟩

/-- C7, amended, at a concrete input: the failing repository and the title
`a`. -/
theorem CreateTask_handler_save_error_witness :
    ((NewTaskService failingRepo).CreateTask () "a").2 = (none, some "disk full") ∧
      ((NewTaskHandler (NewTaskService failingRepo)).CreateTask
          (fun body => Except.ok body) () { Method := "POST", Body := "a" }).2
        = httpError "disk full" 400 ∧
      ((NewTaskHandler (NewTaskService failingRepo)).CreateTask
          (fun body => Except.ok body) () { Method := "POST", Body := "a" }).2.Status = 400 ∧
      ((NewTaskHandler (NewTaskService failingRepo)).CreateTask
          (fun body => Except.ok body) () { Method := "POST", Body := "a" }).1
        = (failingRepo.Save () ⟨0, "a", false, Time.zero, Time.zero⟩).1 :=
  CreateTask_handler_save_error failingRepo (fun body => Except.ok body) ()
    { Method := "POST", Body := "a" } "a" "disk full" rfl (by decide) rfl

end TodoClean
